import Mathlib

/-!
Shallow embedding of the speaker-alignment and subtitle-output core of the
`transcribe-videos` repository (files `src/alignment.py` and
`src/output_utils.py`), together with theorems settling the specification
claims about it.

Numbers that Python holds as `float` are modelled as exact rationals `ℚ`;
Python `dict`s with possibly-missing keys are modelled as structures with
`Option` fields; the multiprocessing pool is modelled by an explicit pool
parameter whose success case is the ordered map that `pool.map` documents.
-/

namespace TranscribeVideos

/-- A speaker turn, i.e. the dict `{"start": .., "end": .., "speaker": ..}`
produced by diarization (`end` is a Lean keyword, hence `end_`). -/
structure Turn where
  start : ℚ
  end_ : ℚ
  speaker : String
deriving DecidableEq, Repr, Inhabited

/-- A raw Whisper word segment member: object with `.word`, `.start`, `.end`. -/
structure RawWord where
  word : String
  start : ℚ
  end_ : ℚ
deriving DecidableEq, Repr

/-- A Whisper segment: object with a `.words` list. -/
structure Segment where
  words : List RawWord
deriving DecidableEq, Repr

/-- An entry of `words_to_process` in `align_speech_and_speakers`:
`{"start": .., "end": .., "text": .., "word_index": ..}`. -/
structure PrepWord where
  start : ℚ
  end_ : ℚ
  text : String
  word_index : Nat
deriving DecidableEq, Repr

/-- The result of `_find_speaker_for_word`: the word dict with the
`"speaker"` key added. -/
structure AlignedWord where
  start : ℚ
  end_ : ℚ
  text : String
  word_index : Nat
  speaker : String
deriving DecidableEq, Repr

/-- CPython `bisect.bisect_right(a, x, lo, hi)` loop body, with an explicit
fuel argument (each iteration shrinks `hi - lo`, so fuel `a.length` suffices
for the initial call). Out-of-range reads never occur on the calls the
program makes; `getD` with default `0` stands in for `a[mid]`. -/
def bisectAux (a : List ℚ) (x : ℚ) : Nat → Nat → Nat → Nat
  | 0, lo, _ => lo
  | fuel + 1, lo, hi =>
    if lo < hi then
      let mid := (lo + hi) / 2
      if x < a.getD mid 0 then bisectAux a x fuel lo mid
      else bisectAux a x fuel (mid + 1) hi
    else lo

/-- `bisect.bisect_right(a, x)`. -/
def bisectRight (a : List ℚ) (x : ℚ) : Nat :=
  bisectAux a x a.length 0 a.length

/-- `word_midpoint = word_start + (word_end - word_start) / 2`. -/
def wordMidpoint (word_info : PrepWord) : ℚ :=
  word_info.start + (word_info.end_ - word_info.start) / 2

/-- The containment test `turn['start'] <= word_midpoint < turn['end']` that
`_find_speaker_for_word` applies to a candidate turn. -/
def turnContains (t : Turn) (m : ℚ) : Prop :=
  t.start ≤ m ∧ m < t.end_

instance (t : Turn) (m : ℚ) : Decidable (turnContains t m) := by
  unfold turnContains; infer_instance

/-- `_find_speaker_for_word` from `src/alignment.py`.  In Python the index
`potential_turn_index = bisect_right(starts, m) - 1` may be `-1`; writing
`k = bisect_right starts m`, the guard `potential_turn_index >= 0` is
`1 ≤ k` and `next_turn_index = potential_turn_index + 1` is `k`. -/
def findSpeakerForWord (word_info : PrepWord) (speaker_turns_tuple : List Turn) :
    AlignedWord :=
  let word_midpoint := wordMidpoint word_info
  let speaker :=
    if speaker_turns_tuple = [] then "UNKNOWN"
    else
      let turn_start_times := speaker_turns_tuple.map (·.start)
      let k := bisectRight turn_start_times word_midpoint
      if 1 ≤ k ∧
          (speaker_turns_tuple.getD (k - 1) default).start ≤ word_midpoint ∧
          word_midpoint < (speaker_turns_tuple.getD (k - 1) default).end_ then
        (speaker_turns_tuple.getD (k - 1) default).speaker
      else
        if k < speaker_turns_tuple.length ∧
            (speaker_turns_tuple.getD k default).start ≤ word_midpoint ∧
            word_midpoint < (speaker_turns_tuple.getD k default).end_ then
          (speaker_turns_tuple.getD k default).speaker
        else "UNKNOWN"
  ⟨word_info.start, word_info.end_, word_info.text, word_info.word_index, speaker⟩

/-- Python `str.strip()`: remove leading and trailing whitespace.  Embedded
directly over the character list (Lean's `Char.isWhitespace` covers the
whitespace that occurs in this program's data). -/
def pyStrip (s : String) : String :=
  String.mk (((s.data.dropWhile Char.isWhitespace).reverse.dropWhile
    Char.isWhitespace).reverse)

/-- The word-preparation loop of `align_speech_and_speakers`, on the
flattened per-segment word lists: strip each word's text, drop it when the
stripped text is empty, and number the surviving words consecutively. -/
def prepWordsAux : List RawWord → Nat → List PrepWord
  | [], _ => []
  | w :: ws, word_index =>
    let word_text := pyStrip w.word
    if word_text = "" then prepWordsAux ws word_index
    else ⟨w.start, w.end_, word_text, word_index⟩ :: prepWordsAux ws (word_index + 1)

/-- `words_to_process` as built by the nested `for segment / for word` loops. -/
def prepareWords (segments : List Segment) : List PrepWord :=
  prepWordsAux ((segments.map (·.words)).flatten) 0

/-- `speaker_turns.sort(key=lambda x: x['start'])`: Python's list sort is
stable, so its result is the insertion sort by the `start` key. -/
def sortByStart (turns : List Turn) : List Turn :=
  turns.insertionSort (fun a b => a.start ≤ b.start)

/-- Outcome of `pool.map(worker_func, words_to_process)`: either the list of
results, or a raised exception (carried as its message). -/
abbrev PoolRun := List Turn → List PrepWord → Except String (List AlignedWord)

/-- The pool behaving as `multiprocessing.Pool.map` documents: an ordered
map of the worker over the words, with no failure. -/
def goodPool : PoolRun := fun ts ws => Except.ok (ws.map (findSpeakerForWord · ts))

/-- `align_speech_and_speakers` from `src/alignment.py`, with the pool as an
explicit parameter.  The returned pair is `(return value, the caller's
speaker_turns list after the call)`: the Python code sorts the caller's list
in place (when it is non-empty and the early `return []` for zero words was
not taken), so the second component records that externally visible effect.
All three `except` clauses return `[]`, which the `.error` branch models. -/
def alignRun (segments : List Segment) (speaker_turns : List Turn)
    (pool : PoolRun) : List AlignedWord × List Turn :=
  -- `if not speaker_turns: speaker_turns = []` rebinds the local name only.
  let words_to_process := prepareWords segments
  if words_to_process = [] then ([], speaker_turns)
  else
    let sorted_turns := sortByStart speaker_turns
    match pool sorted_turns words_to_process with
    | Except.ok r => (r, sorted_turns)
    | Except.error _ => ([], sorted_turns)

/-- The alignment result on the success path (the pool computes the ordered
map). -/
def alignSpeechAndSpeakers (segments : List Segment) (speaker_turns : List Turn) :
    List AlignedWord :=
  (alignRun segments speaker_turns goodPool).1

/-- The caller's `speaker_turns` list as it stands after
`align_speech_and_speakers` returns. -/
def turnsAfterAlign (segments : List Segment) (speaker_turns : List Turn) :
    List Turn :=
  (alignRun segments speaker_turns goodPool).2

/-- `math.ceil(a / b)` for positive integers. -/
def natCeilDiv (a b : Nat) : Nat := (a + b - 1) / b

/-- The dynamic worker-count computation of `align_speech_and_speakers`. -/
def numWorkers (total_words target_chunk_size max_workers : Nat) : Nat :=
  if 0 < total_words ∧ 0 < target_chunk_size then
    max 1 (min max_workers (natCeilDiv total_words target_chunk_size))
  else 1

/-- The `chunksize` passed to `pool.map` (`chunk_factor = 4`). -/
def poolChunksize (total_words workers : Nat) : Nat :=
  if 0 < total_words then max 1 (natCeilDiv total_words (workers * 4)) else 1

/-- Splitting a list into consecutive chunks of size `c`, as `pool.map`
distributes its input; fuel `xs.length` suffices when `0 < c`. -/
def chunkListAux {α : Type} : Nat → List α → Nat → List (List α)
  | _, [], _ => []
  | 0, _ :: _, _ => []
  | fuel + 1, x :: xs, c => (x :: xs).take c :: chunkListAux fuel ((x :: xs).drop c) c

/-- `chunkList xs c`: the consecutive chunks of `xs` of size `c`. -/
def chunkList {α : Type} (xs : List α) (c : Nat) : List (List α) :=
  chunkListAux xs.length xs c

/-- `align_speech_and_speakers` with the pool's chunked evaluation made
explicit: each chunk is mapped by the worker and the per-chunk results are
reassembled in original chunk order. -/
def alignChunked (segments : List Segment) (speaker_turns : List Turn)
    (c : Nat) : List AlignedWord :=
  if prepareWords segments = [] then []
  else
    ((chunkList (prepareWords segments) c).map
      (List.map (findSpeakerForWord · (sortByStart speaker_turns)))).flatten

/-! ### Properties of the binary search -/

/-- The bisection loop homes in on the partition point `r` of the predicate
`· ≤ x`, whenever such a partition point exists between `lo` and `hi`. -/
lemma bisectAux_eq (a : List ℚ) (x : ℚ) (r : Nat)
    (h1 : ∀ i, i < r → a.getD i 0 ≤ x)
    (h2 : ∀ i, r ≤ i → i < a.length → x < a.getD i 0) :
    ∀ fuel lo hi, hi - lo ≤ fuel → lo ≤ r → r ≤ hi → hi ≤ a.length →
      bisectAux a x fuel lo hi = r := by
  intro fuel
  induction fuel with
  | zero =>
    intro lo hi hfuel hlo hhi _
    simp only [bisectAux]
    omega
  | succ fuel ih =>
    intro lo hi hfuel hlo hhi hlen
    simp only [bisectAux]
    by_cases hlt : lo < hi
    · simp only [if_pos hlt]
      set mid := (lo + hi) / 2 with hmid
      have hmlo : lo ≤ mid := by omega
      have hmhi : mid < hi := by omega
      by_cases hx : x < a.getD mid 0
      · simp only [if_pos hx]
        have hrm : r ≤ mid := by
          by_contra hcon
          exact absurd (lt_of_le_of_lt (h1 mid (by omega)) hx) (lt_irrefl _)
        exact ih lo mid (by omega) hlo hrm (by omega)
      · simp only [if_neg hx]
        have hrm : mid < r := by
          by_contra hcon
          exact hx (h2 mid (by omega) (by omega))
        exact ih (mid + 1) hi (by omega) (by omega) hhi hlen
    · simp only [if_neg hlt]
      omega

/-- `bisect_right` returns the partition point of `· ≤ x`. -/
lemma bisectRight_eq (a : List ℚ) (x : ℚ) (r : Nat) (hr : r ≤ a.length)
    (h1 : ∀ i, i < r → a.getD i 0 ≤ x)
    (h2 : ∀ i, r ≤ i → i < a.length → x < a.getD i 0) :
    bisectRight a x = r :=
  bisectAux_eq a x r h1 h2 a.length 0 a.length (by omega) (by omega) hr le_rfl

/-- Core behaviour of `_find_speaker_for_word` on a sorted turn list: if the
turn at position `j` contains the midpoint and every later turn starts
strictly after the midpoint, then that turn's speaker is assigned. -/
lemma findSpeaker_speaker_eq_get (w : PrepWord) (turns : List Turn) (j : Nat)
    (hsort : turns.Pairwise (fun a b => a.start ≤ b.start))
    (hj : j < turns.length)
    (hstart : (turns.get ⟨j, hj⟩).start ≤ wordMidpoint w)
    (hend : wordMidpoint w < (turns.get ⟨j, hj⟩).end_)
    (hafter : ∀ k, (hk : k < turns.length) → j < k →
      wordMidpoint w < (turns.get ⟨k, hk⟩).start) :
    (findSpeakerForWord w turns).speaker = (turns.get ⟨j, hj⟩).speaker := by
  have hne : turns ≠ [] := by
    intro h; rw [h] at hj; simp at hj
  have hlen : (turns.map (·.start)).length = turns.length := by
    simp
  have hbis : bisectRight (turns.map (·.start)) (wordMidpoint w) = j + 1 := by
    apply bisectRight_eq
    · omega
    · intro i hi
      have hi' : i < turns.length := by omega
      rw [List.getD_eq_get _ _ (by omega)]
      have : (turns.map (·.start)).get ⟨i, by omega⟩ = (turns.get ⟨i, hi'⟩).start := by
        simp
      rw [this]
      rcases Nat.lt_or_ge i j with hij | hij
      · exact le_trans (List.pairwise_iff_get.mp hsort ⟨i, hi'⟩ ⟨j, hj⟩ hij) hstart
      · have : i = j := by omega
        subst this; exact hstart
    · intro i hi hi'
      have hi'' : i < turns.length := by omega
      rw [List.getD_eq_get _ _ (by omega)]
      have heq : (turns.map (·.start)).get ⟨i, by omega⟩ = (turns.get ⟨i, hi''⟩).start := by
        simp
      rw [heq]
      exact hafter i hi'' (by omega)
  have hgd : turns.getD (j + 1 - 1) default = turns.get ⟨j, hj⟩ := by
    simp only [Nat.add_sub_cancel]
    exact List.getD_eq_get _ _ hj
  simp only [findSpeakerForWord, if_neg hne, hbis, hgd]
  rw [if_pos ⟨by omega, hstart, hend⟩]

/-! ### Word preparation preserves the filtered input -/

/-- The preparation loop keeps exactly the words with non-empty stripped
text, in order, carrying over start, end and the stripped text. -/
lemma prepWordsAux_proj (ws : List RawWord) (i : Nat) :
    (prepWordsAux ws i).map (fun p => (p.start, p.end_, p.text)) =
      (ws.filter (fun w => pyStrip w.word ≠ "")).map
        (fun w => (w.start, w.end_, pyStrip w.word)) := by
  induction ws generalizing i with
  | nil => simp [prepWordsAux]
  | cons w ws ih =>
    by_cases h : pyStrip w.word = ""
    · simp [prepWordsAux, h, List.filter_cons, ih]
    · simp [prepWordsAux, h, List.filter_cons, ih]

/-- The worker result keeps the word's start, end and text. -/
lemma findSpeaker_preserves (w : PrepWord) (ts : List Turn) :
    ((findSpeakerForWord w ts).start, (findSpeakerForWord w ts).end_,
      (findSpeakerForWord w ts).text) = (w.start, w.end_, w.text) := rfl

/-- `align_speech_and_speakers` on zero prepared words: early `return []`,
the caller's turn list untouched (the sort is never reached). -/
lemma alignRun_of_no_words (segments : List Segment) (speaker_turns : List Turn)
    (pool : PoolRun) (h : prepareWords segments = []) :
    alignRun segments speaker_turns pool = ([], speaker_turns) := by
  unfold alignRun
  rw [h]
  simp

/-- `align_speech_and_speakers` with at least one prepared word: the caller's
list is sorted in place and the pool outcome decides the return value. -/
lemma alignRun_of_words (segments : List Segment) (speaker_turns : List Turn)
    (pool : PoolRun) (h : prepareWords segments ≠ []) :
    alignRun segments speaker_turns pool =
      match pool (sortByStart speaker_turns) (prepareWords segments) with
      | Except.ok r => (r, sortByStart speaker_turns)
      | Except.error _ => ([], sortByStart speaker_turns) := by
  unfold alignRun
  simp [h]

/-- **C1.** When the pool behaves as the ordered map that `pool.map`
documents (no pool failure), `align_speech_and_speakers` returns one aligned
word per input word with non-empty trimmed text, in the original relative
order, each aligned word carrying the same start, end and trimmed text as
the corresponding filtered input word. -/
theorem align_length_and_order (segments : List Segment) (speaker_turns : List Turn)
    (pool : PoolRun)
    (hpool : ∀ ts ws, pool ts ws = Except.ok (ws.map (findSpeakerForWord · ts))) :
    ((alignRun segments speaker_turns pool).1).length =
      (((segments.map (·.words)).flatten).filter
        (fun w => pyStrip w.word ≠ "")).length ∧
    ((alignRun segments speaker_turns pool).1).map
        (fun a => (a.start, a.end_, a.text)) =
      (((segments.map (·.words)).flatten).filter (fun w => pyStrip w.word ≠ "")).map
        (fun w => (w.start, w.end_, pyStrip w.word)) := by
  have hproj := prepWordsAux_proj ((segments.map (·.words)).flatten) 0
  have hprep : (prepareWords segments).map (fun p => (p.start, p.end_, p.text)) =
      (((segments.map (·.words)).flatten).filter (fun w => pyStrip w.word ≠ "")).map
        (fun w => (w.start, w.end_, pyStrip w.word)) := hproj
  have hlen : (prepareWords segments).length =
      (((segments.map (·.words)).flatten).filter (fun w => pyStrip w.word ≠ "")).length := by
    have h := congrArg List.length hprep
    rw [List.length_map, List.length_map] at h
    exact h
  by_cases hempty : prepareWords segments = []
  · rw [alignRun_of_no_words segments speaker_turns pool hempty]
    constructor
    · rw [hempty] at hlen
      simpa using hlen
    · rw [hempty] at hprep
      simp only [List.map_nil] at hprep
      simpa using hprep
  · rw [alignRun_of_words segments speaker_turns pool hempty, hpool]
    constructor
    · simpa using hlen
    · simp only [List.map_map]
      exact hprep

/-- Witness for C1 at the repository's own test input (`test_alignment.py`). -/
theorem align_length_and_order_witness :
    ((alignRun [⟨[⟨"Hello", 0, 1⟩, ⟨"world", 11/10, 2⟩]⟩]
        [⟨0, 3/2, "SPEAKER_1"⟩, ⟨3/2, 5/2, "SPEAKER_2"⟩] goodPool).1).length =
      ((([⟨[⟨"Hello", 0, 1⟩, ⟨"world", 11/10, 2⟩]⟩] : List Segment).map
        (·.words)).flatten.filter (fun w => pyStrip w.word ≠ "")).length ∧
    ((alignRun [⟨[⟨"Hello", 0, 1⟩, ⟨"world", 11/10, 2⟩]⟩]
        [⟨0, 3/2, "SPEAKER_1"⟩, ⟨3/2, 5/2, "SPEAKER_2"⟩] goodPool).1).map
        (fun a => (a.start, a.end_, a.text)) =
      ((([⟨[⟨"Hello", 0, 1⟩, ⟨"world", 11/10, 2⟩]⟩] : List Segment).map
        (·.words)).flatten.filter (fun w => pyStrip w.word ≠ "")).map
        (fun w => (w.start, w.end_, pyStrip w.word)) :=
  align_length_and_order _ _ goodPool (fun _ _ => rfl)

/-! ### C2: failure semantics -/

/-- **C2 counterexample.** With a non-empty word list, a pool failure makes
`align_speech_and_speakers` return `[]` — the very value it returns for zero
input words — so the caller observes an error as the same value as "nothing
to align", contradicting the claim. -/
theorem align_error_indistinguishable_cex :
    prepareWords [⟨[⟨"Hello", 0, 1⟩]⟩] ≠ [] ∧
    (alignRun [⟨[⟨"Hello", 0, 1⟩]⟩] [⟨0, 3/2, "SPEAKER_1"⟩]
        (fun _ _ => Except.error "worker failed")).1 = [] ∧
    (alignRun ([] : List Segment) [⟨0, 3/2, "SPEAKER_1"⟩] goodPool).1 = [] := by
  have hprep : prepareWords [⟨[⟨"Hello", 0, 1⟩]⟩] = [⟨0, 1, "Hello", 0⟩] := rfl
  refine ⟨by rw [hprep]; exact List.cons_ne_nil _ _, ?_, ?_⟩
  · rw [alignRun_of_words _ _ _ (by rw [hprep]; exact List.cons_ne_nil _ _)]
  · rw [alignRun_of_no_words ([] : List Segment) _ goodPool rfl]

/-- **C2 amended.** Any pool-level failure aborts the whole alignment, but
it is reported as the empty list — the same return value as the legitimate
empty result for zero input words, hence not distinguishable from it. -/
theorem align_error_returns_empty (segments : List Segment)
    (speaker_turns : List Turn) (msg : String) :
    (alignRun segments speaker_turns (fun _ _ => Except.error msg)).1 =
      (alignRun ([] : List Segment) speaker_turns goodPool).1 ∧
    (alignRun ([] : List Segment) speaker_turns goodPool).1 = [] := by
  have hnil : (alignRun ([] : List Segment) speaker_turns goodPool).1 = [] := by
    rw [alignRun_of_no_words ([] : List Segment) speaker_turns goodPool rfl]
  refine ⟨?_, hnil⟩
  rw [hnil]
  by_cases h : prepareWords segments = []
  · rw [alignRun_of_no_words _ _ _ h]
  · rw [alignRun_of_words _ _ _ h]

/-! ### C3: the caller's turn list is sorted in place -/

instance : IsTotal Turn (fun a b => a.start ≤ b.start) :=
  ⟨fun a b => le_total a.start b.start⟩

instance : IsTrans Turn (fun a b => a.start ≤ b.start) :=
  ⟨fun _ _ _ h h' => le_trans h h'⟩

/-- **C3 counterexample.** After aligning one word against the unsorted
turn list `[B(2..3), A(0..1)]`, the caller's list is `[A, B]` — sorted, not
its original order — so the claim that the original list is unchanged fails. -/
theorem align_mutates_caller_turns_cex :
    turnsAfterAlign [⟨[⟨"Hello", 0, 1⟩]⟩] [⟨2, 3, "B"⟩, ⟨0, 1, "A"⟩] =
      [⟨0, 1, "A"⟩, ⟨2, 3, "B"⟩] ∧
    ([⟨0, 1, "A"⟩, ⟨2, 3, "B"⟩] : List Turn) ≠ [⟨2, 3, "B"⟩, ⟨0, 1, "A"⟩] := by
  constructor
  · unfold turnsAfterAlign
    have hne : prepareWords [⟨[⟨"Hello", 0, 1⟩]⟩] ≠ [] := by
      rw [(rfl : prepareWords [⟨[⟨"Hello", 0, 1⟩]⟩] = [⟨0, 1, "Hello", 0⟩])]
      exact List.cons_ne_nil _ _
    rw [alignRun_of_words _ _ _ hne]
    show sortByStart [⟨2, 3, "B"⟩, ⟨0, 1, "A"⟩] = [⟨0, 1, "A"⟩, ⟨2, 3, "B"⟩]
    norm_num [sortByStart, List.insertionSort, List.orderedInsert]
  · intro h
    have h2 := congrArg Turn.start (List.head_eq_of_cons_eq h)
    norm_num at h2

/-- **C3 amended.** Whenever at least one word survives filtering,
`align_speech_and_speakers` sorts the caller's `speaker_turns` list in place:
after the call the caller's list is the stable ascending-by-`start` sort of
the original — a permutation of the original elements, sorted by `start`,
and not in general the original order. -/
theorem align_sorts_caller_turns (segments : List Segment)
    (speaker_turns : List Turn) (h : prepareWords segments ≠ []) :
    turnsAfterAlign segments speaker_turns = sortByStart speaker_turns ∧
    (turnsAfterAlign segments speaker_turns).Pairwise
      (fun a b => a.start ≤ b.start) ∧
    (turnsAfterAlign segments speaker_turns).Perm speaker_turns := by
  have heq : turnsAfterAlign segments speaker_turns = sortByStart speaker_turns := by
    unfold turnsAfterAlign
    rw [alignRun_of_words _ _ _ h]
    rfl
  refine ⟨heq, ?_, ?_⟩
  · rw [heq]
    exact List.sorted_insertionSort (fun a b => a.start ≤ b.start) speaker_turns
  · rw [heq]
    exact List.perm_insertionSort (fun a b => a.start ≤ b.start) speaker_turns

/-- Witness for C3 (amended) at a concrete input. -/
theorem align_sorts_caller_turns_witness :
    turnsAfterAlign [⟨[⟨"Hello", 0, 1⟩]⟩] [⟨2, 3, "B"⟩, ⟨0, 1, "A"⟩] =
      sortByStart [⟨2, 3, "B"⟩, ⟨0, 1, "A"⟩] ∧
    (turnsAfterAlign [⟨[⟨"Hello", 0, 1⟩]⟩] [⟨2, 3, "B"⟩, ⟨0, 1, "A"⟩]).Pairwise
      (fun a b => a.start ≤ b.start) ∧
    (turnsAfterAlign [⟨[⟨"Hello", 0, 1⟩]⟩] [⟨2, 3, "B"⟩, ⟨0, 1, "A"⟩]).Perm
      [⟨2, 3, "B"⟩, ⟨0, 1, "A"⟩] :=
  align_sorts_caller_turns _ _ (by
    rw [(rfl : prepareWords [⟨[⟨"Hello", 0, 1⟩]⟩] = [⟨0, 1, "Hello", 0⟩])]
    exact List.cons_ne_nil _ _)

/-! ### C4: word fully inside exactly one turn -/

/-- **C4 counterexample.** The word `[4,6]` lies fully inside exactly one
turn, `a = [0,10)`, and inside no other turn of `[a, b=[5,20)]`; yet its
midpoint `5` also lies in `b`, which starts later, and the binary search
assigns speaker `"b"`, not `"a"` — refuting the claim as stated. -/
theorem word_in_unique_turn_cex :
    (⟨0, 10, "a"⟩ : Turn).start ≤ (4 : ℚ) ∧ (6 : ℚ) ≤ (⟨0, 10, "a"⟩ : Turn).end_ ∧
    (∀ t ∈ ([⟨0, 10, "a"⟩, ⟨5, 20, "b"⟩] : List Turn),
      t.start ≤ (4 : ℚ) ∧ (6 : ℚ) ≤ t.end_ → t = ⟨0, 10, "a"⟩) ∧
    (findSpeakerForWord ⟨4, 6, "x", 0⟩ [⟨0, 10, "a"⟩, ⟨5, 20, "b"⟩]).speaker = "b" ∧
    ("b" : String) ≠ "a" := by
  refine ⟨by norm_num, by norm_num, ?_, ?_, by simp⟩
  · intro t ht hcond
    simp only [List.mem_cons, List.mem_singleton] at ht
    rcases ht with h | h | h
    · exact h
    · exfalso; rw [h] at hcond; norm_num at hcond
    · simp at h
  · norm_num [findSpeakerForWord, bisectRight, bisectAux, wordMidpoint]
    intro h
    simp at h

/-- **C4 amended.** A word fully inside exactly one turn `t` receives `t`'s
speaker, provided additionally that `t` is the last turn of the sorted list
whose start does not exceed the word's midpoint, and the midpoint lies
strictly before `t`'s end (without these extra conditions the claim fails,
see the counterexample). -/
theorem word_in_unique_turn_speaker (w : PrepWord) (turns : List Turn) (j : Nat)
    (hsort : turns.Pairwise (fun a b => a.start ≤ b.start))
    (hj : j < turns.length)
    (hin : (turns.get ⟨j, hj⟩).start ≤ w.start ∧ w.end_ ≤ (turns.get ⟨j, hj⟩).end_)
    (huniq : ∀ t ∈ turns, t.start ≤ w.start ∧ w.end_ ≤ t.end_ → t = turns.get ⟨j, hj⟩)
    (hw : w.start ≤ w.end_)
    (hmid : wordMidpoint w < (turns.get ⟨j, hj⟩).end_)
    (hafter : ∀ k, (hk : k < turns.length) → j < k →
      wordMidpoint w < (turns.get ⟨k, hk⟩).start) :
    (findSpeakerForWord w turns).speaker = (turns.get ⟨j, hj⟩).speaker := by
  have hms : w.start ≤ wordMidpoint w := by
    unfold wordMidpoint
    linarith
  exact findSpeaker_speaker_eq_get w turns j hsort hj
    (le_trans hin.1 hms) hmid hafter

/-- Witness for C4 (amended): the word `[0,1]` inside the single turn
`A = [0,1]` of `[A, B=[2,3]]` gets speaker `"A"`. -/
theorem word_in_unique_turn_speaker_witness :
    (0 : ℚ) ≤ 1 ∧
    (findSpeakerForWord ⟨0, 1, "hi", 0⟩ [⟨0, 1, "A"⟩, ⟨2, 3, "B"⟩]).speaker =
      (([⟨0, 1, "A"⟩, ⟨2, 3, "B"⟩] : List Turn).get ⟨0, by simp⟩).speaker := by
  refine ⟨by norm_num, ?_⟩
  refine word_in_unique_turn_speaker ⟨0, 1, "hi", 0⟩ [⟨0, 1, "A"⟩, ⟨2, 3, "B"⟩] 0
    (by norm_num [List.pairwise_cons]) (by simp) (by norm_num) ?_ (by norm_num)
    (by norm_num [wordMidpoint]) ?_
  · intro t ht hcond
    simp only [List.mem_cons, List.mem_singleton] at ht
    rcases ht with h | h | h
    · simpa using h
    · exfalso; rw [h] at hcond; norm_num at hcond
    · simp at h
  · intro k hk hk0
    simp at hk
    have : k = 1 := by omega
    subst this
    show wordMidpoint ⟨0, 1, "hi", 0⟩ < (2 : ℚ)
    norm_num [wordMidpoint]

/-! ### C5: overlapping turns tie-break -/

/-- **C5 counterexample.** With sorted turns `a=[0,10)`, `b=[2,8)`,
`c=[3,4)` and word `[4,6]` (midpoint `5`), the midpoint lies in the two
overlapping turns `a` and `b`, and among the containing turns `b` has the
greatest start; but the code assigns `"UNKNOWN"` (the binary search lands on
`c`, which does not contain the midpoint), refuting the claim. -/
theorem overlap_tiebreak_cex :
    wordMidpoint ⟨4, 6, "x", 0⟩ = 5 ∧
    turnContains ⟨0, 10, "a"⟩ (5 : ℚ) ∧
    turnContains ⟨2, 8, "b"⟩ (5 : ℚ) ∧
    (∀ u ∈ ([⟨0, 10, "a"⟩, ⟨2, 8, "b"⟩, ⟨3, 4, "c"⟩] : List Turn),
      turnContains u (5 : ℚ) → u.start ≤ (⟨2, 8, "b"⟩ : Turn).start) ∧
    ([⟨0, 10, "a"⟩, ⟨2, 8, "b"⟩, ⟨3, 4, "c"⟩] : List Turn).Pairwise
      (fun a b => a.start ≤ b.start) ∧
    (findSpeakerForWord ⟨4, 6, "x", 0⟩
      [⟨0, 10, "a"⟩, ⟨2, 8, "b"⟩, ⟨3, 4, "c"⟩]).speaker = "UNKNOWN" ∧
    ("UNKNOWN" : String) ≠ "b" := by
  refine ⟨by norm_num [wordMidpoint], by norm_num [turnContains],
    by norm_num [turnContains], ?_, ?_, ?_, by simp⟩
  · intro u hu hcont
    simp only [List.mem_cons, List.mem_singleton] at hu
    rcases hu with h | h | h | h
    · rw [h]; norm_num
    · rw [h]
    · rw [h]; show (3 : ℚ) ≤ 2
      exfalso
      rw [h] at hcont
      rcases hcont with ⟨_, hlt⟩
      norm_num at hlt
    · simp at h
  · norm_num [List.pairwise_cons]
  · norm_num [findSpeakerForWord, bisectRight, bisectAux, wordMidpoint]

/-- **C5 amended.** Among turns containing the word's midpoint the
greatest-start one wins, provided the last turn of the sorted list whose
start does not exceed the midpoint itself contains the midpoint (in the
counterexample a later-starting non-containing turn hides the containing
ones and the word gets `"UNKNOWN"`). -/
theorem overlap_tiebreak_speaker (w : PrepWord) (turns : List Turn) (j : Nat)
    (hsort : turns.Pairwise (fun a b => a.start ≤ b.start))
    (hj : j < turns.length)
    (hover : ∃ t1 ∈ turns, ∃ t2 ∈ turns, t1 ≠ t2 ∧
      turnContains t1 (wordMidpoint w) ∧ turnContains t2 (wordMidpoint w))
    (hjcont : turnContains (turns.get ⟨j, hj⟩) (wordMidpoint w))
    (hafter : ∀ k, (hk : k < turns.length) → j < k →
      wordMidpoint w < (turns.get ⟨k, hk⟩).start) :
    ∃ t ∈ turns, turnContains t (wordMidpoint w) ∧
      (∀ u ∈ turns, turnContains u (wordMidpoint w) → u.start ≤ t.start) ∧
      (findSpeakerForWord w turns).speaker = t.speaker := by
  refine ⟨turns.get ⟨j, hj⟩, List.get_mem turns j hj, hjcont, ?_, ?_⟩
  · intro u hu hcont
    rcases List.mem_iff_get.mp hu with ⟨⟨i, hi⟩, hget⟩
    rcases Nat.lt_or_ge j i with hij | hij
    · exfalso
      have := hafter i hi hij
      rw [hget] at this
      exact absurd (lt_of_lt_of_le this hcont.1) (lt_irrefl _)
    · rcases Nat.lt_or_ge i j with hij' | hij'
      · have := List.pairwise_iff_get.mp hsort ⟨i, hi⟩ ⟨j, hj⟩ hij'
        rw [hget] at this
        exact this
      · have : i = j := by omega
        subst this
        rw [← hget]

  · exact findSpeaker_speaker_eq_get w turns j hsort hj hjcont.1 hjcont.2 hafter

/-- Witness for C5 (amended): turns `A=[0,3)`, `B=[1,4)` both contain the
midpoint `2` of word `[1,3]`; `B` starts last and wins. -/
theorem overlap_tiebreak_speaker_witness :
    (∃ t ∈ ([⟨0, 3, "A"⟩, ⟨1, 4, "B"⟩] : List Turn),
      turnContains t (wordMidpoint ⟨1, 3, "w", 0⟩) ∧
      (∀ u ∈ ([⟨0, 3, "A"⟩, ⟨1, 4, "B"⟩] : List Turn),
        turnContains u (wordMidpoint ⟨1, 3, "w", 0⟩) → u.start ≤ t.start) ∧
      (findSpeakerForWord ⟨1, 3, "w", 0⟩ [⟨0, 3, "A"⟩, ⟨1, 4, "B"⟩]).speaker =
        t.speaker) := by
  refine overlap_tiebreak_speaker ⟨1, 3, "w", 0⟩ [⟨0, 3, "A"⟩, ⟨1, 4, "B"⟩] 1
    (by norm_num [List.pairwise_cons]) (by simp) ?_ ?_ ?_
  · refine ⟨⟨0, 3, "A"⟩, by simp, ⟨1, 4, "B"⟩, by simp, ?_, ?_, ?_⟩
    · intro h
      have h2 := congrArg Turn.start h
      norm_num at h2
    · norm_num [turnContains, wordMidpoint]
    · norm_num [turnContains, wordMidpoint]
  · show turnContains ⟨1, 4, "B"⟩ (wordMidpoint ⟨1, 3, "w", 0⟩)
    norm_num [turnContains, wordMidpoint]
  · intro k hk hk0
    simp at hk
    omega

/-! ### C6: chunked parallel map equals the sequential map -/

/-- Flattening the chunks gives back the original list (positive chunk
size). -/
lemma chunkListAux_flatten {α : Type} :
    ∀ (fuel : Nat) (xs : List α) (c : Nat), xs.length ≤ fuel → 0 < c →
      (chunkListAux fuel xs c).flatten = xs := by
  intro fuel
  induction fuel with
  | zero =>
    intro xs c hlen _
    cases xs with
    | nil => simp [chunkListAux]
    | cons x xs => simp at hlen
  | succ fuel ih =>
    intro xs c hlen hc
    cases xs with
    | nil => simp [chunkListAux]
    | cons x xs =>
      simp only [chunkListAux, List.flatten_cons]
      rw [ih ((x :: xs).drop c) c (by simp only [List.length_drop]; omega) hc]
      exact List.take_append_drop c (x :: xs)

/-- Mapping over the chunks and flattening equals mapping over the
flattened list. -/
lemma flatten_map_map {α β : Type} (f : α → β) :
    ∀ L : List (List α), (L.map (List.map f)).flatten = L.flatten.map f := by
  intro L
  induction L with
  | nil => simp
  | cons l L ih => simp only [List.map_cons, List.flatten_cons, List.map_append, ih]

/-- **C6.** For every positive chunk size, the chunked parallel evaluation
of the alignment produces exactly the sequential map of
`_find_speaker_for_word` over the filtered words — identical content and
order — and the worker count and chunk size the source computes are always
legal (positive). -/
theorem align_chunked_eq_sequential (segments : List Segment)
    (speaker_turns : List Turn) (c : Nat) (hc : 0 < c) :
    alignChunked segments speaker_turns c =
      alignSpeechAndSpeakers segments speaker_turns ∧
    alignSpeechAndSpeakers segments speaker_turns =
      (prepareWords segments).map
        (findSpeakerForWord · (sortByStart speaker_turns)) ∧
    (∀ total tc mw, 0 < numWorkers total tc mw ∧
      0 < poolChunksize total (numWorkers total tc mw)) := by
  refine ⟨?_, ?_, ?_⟩
  · unfold alignChunked alignSpeechAndSpeakers
    by_cases h : prepareWords segments = []
    · rw [if_pos h, alignRun_of_no_words _ _ _ h]
    · rw [if_neg h, alignRun_of_words _ _ _ h]
      rw [flatten_map_map, chunkList,
        chunkListAux_flatten (prepareWords segments).length _ c le_rfl hc]
      rfl
  · unfold alignSpeechAndSpeakers
    by_cases h : prepareWords segments = []
    · rw [alignRun_of_no_words _ _ _ h, h]
      simp
    · rw [alignRun_of_words _ _ _ h]
      rfl
  · intro total tc mw
    constructor
    · unfold numWorkers
      split <;> omega
    · unfold poolChunksize
      split <;> omega

/-- Witness for C6 at chunk size 3 on the repository's test input. -/
theorem align_chunked_eq_sequential_witness :
    alignChunked [⟨[⟨"Hello", 0, 1⟩, ⟨"world", 11/10, 2⟩]⟩]
        [⟨0, 3/2, "SPEAKER_1"⟩, ⟨3/2, 5/2, "SPEAKER_2"⟩] 3 =
      alignSpeechAndSpeakers [⟨[⟨"Hello", 0, 1⟩, ⟨"world", 11/10, 2⟩]⟩]
        [⟨0, 3/2, "SPEAKER_1"⟩, ⟨3/2, 5/2, "SPEAKER_2"⟩] ∧
    alignSpeechAndSpeakers [⟨[⟨"Hello", 0, 1⟩, ⟨"world", 11/10, 2⟩]⟩]
        [⟨0, 3/2, "SPEAKER_1"⟩, ⟨3/2, 5/2, "SPEAKER_2"⟩] =
      (prepareWords [⟨[⟨"Hello", 0, 1⟩, ⟨"world", 11/10, 2⟩]⟩]).map
        (findSpeakerForWord ·
          (sortByStart [⟨0, 3/2, "SPEAKER_1"⟩, ⟨3/2, 5/2, "SPEAKER_2"⟩])) ∧
    (∀ total tc mw, 0 < numWorkers total tc mw ∧
      0 < poolChunksize total (numWorkers total tc mw)) :=
  align_chunked_eq_sequential _ _ 3 (by norm_num)

/-! ## `src/output_utils.py` -/

/-- The argument of `format_srt_time`: a finite number (int or float,
modelled exactly as a rational), a NaN, an infinity, or `None` (also
standing for any non-number object, which the `isinstance` guard rejects
the same way). -/
inductive PySeconds where
  | num (q : ℚ)
  | nan
  | inf
  | ninf
  | none_
deriving DecidableEq, Repr

/-- Python `int(x)` on a finite float: truncation toward zero. -/
def pyTrunc (q : ℚ) : ℤ := if 0 ≤ q then ⌊q⌋ else -⌊-q⌋

/-- Python `f"{n:0w}"` for a non-negative integer `n`: decimal digits,
left-padded with zeros to width `w`. -/
def zpad (w : Nat) (n : ℤ) : String :=
  let s := toString n.toNat
  String.mk (List.replicate (w - s.length) '0') ++ s

/-- `format_srt_time` from `src/output_utils.py`.  Python's `%` and `//` on
integers are floor-based, hence `Int.fmod` and `Int.fdiv`. -/
def formatSrtTime : PySeconds → String
  | PySeconds.nan => "00:00:00,000"
  | PySeconds.inf => "00:00:00,000"
  | PySeconds.ninf => "00:00:00,000"
  | PySeconds.none_ => "00:00:00,000"
  | PySeconds.num seconds =>
    let t : ℤ := pyTrunc seconds
    let millisec : ℤ := max 0 (pyTrunc ((seconds - (t : ℚ)) * 1000))
    let sec : ℤ := max 0 (Int.fmod t 60)
    let mins : ℤ := max 0 (Int.fmod (Int.fdiv t 60) 60)
    let hrs : ℤ := max 0 (Int.fdiv t 3600)
    zpad 2 hrs ++ ":" ++ zpad 2 mins ++ ":" ++ zpad 2 sec ++ "," ++ zpad 3 millisec

/-- `" ".join` of a token list, i.e. the string the Python loop keeps in
`current_line` when the tokens so far are known. -/
def joinSp : List String → String
  | [] => ""
  | [w] => w
  | w :: ws => w ++ " " ++ joinSp ws

/-- `"\n".join` of the wrapped lines. -/
def joinNl : List String → String
  | [] => ""
  | [l] => l
  | l :: ls => l ++ "\n" ++ joinNl ls

/-- Pythons `str.split()` worker: scan the characters, accumulating the
current word reversed; whitespace ends a word, runs of whitespace produce
nothing. -/
def wordsAux : List Char → List Char → List String
  | [], cur => if cur = [] then [] else [String.mk cur.reverse]
  | c :: cs, cur =>
    if c.isWhitespace then
      if cur = [] then wordsAux cs []
      else String.mk cur.reverse :: wordsAux cs []
    else wordsAux cs (c :: cur)

/-- Python `text.split()`: the whitespace-separated words of `text`. -/
def pySplitWs (text : String) : List String := wordsAux text.data []

/-- The greedy line-packing loop of `_wrap_text_to_lines`, with
`current_line` represented by its token list (the Python string
`current_line` is always the `" ".join` of those tokens, so
`len(current_line)` is `(joinSp current_line).length`). -/
def wrapWordsAux (max_line_length : Nat) :
    List String → List String → List (List String) → List (List String)
  | [], current_line, acc =>
    if current_line = [] then acc else acc ++ [current_line]
  | word :: ws, current_line, acc =>
    if current_line = [] then wrapWordsAux max_line_length ws [word] acc
    else if (joinSp current_line).length + word.length + 1 ≤ max_line_length then
      wrapWordsAux max_line_length ws (current_line ++ [word]) acc
    else wrapWordsAux max_line_length ws [word] (acc ++ [current_line])

/-- The wrapped lines of `_wrap_text_to_lines` (default `max_line_length` 0
models the falsy `None`/`0` guard `if not max_line_length`). -/
def wrapLines (text : String) (max_line_length : Nat) : List String :=
  if max_line_length = 0 ∨ text.length ≤ max_line_length then [text]
  else (wrapWordsAux max_line_length (pySplitWs text) [] []).map joinSp

/-- `_wrap_text_to_lines` from `src/output_utils.py`. -/
def wrapTextToLines (text : String) (max_line_length : Nat) : String :=
  joinNl (wrapLines text max_line_length)

/-- An element of the `aligned_words` list fed to `save_to_srt`: a dict
whose keys may be missing (`none` also covers a key present with value
`None`, which the source treats the same for `start`/`end`). -/
structure WordInfo where
  start : Option ℚ
  end_ : Option ℚ
  text : Option String
  speaker : Option String
deriving DecidableEq, Repr

/-- The `srt_options` values `save_to_srt` reads (defaults 42, 10, 1.0). -/
structure SrtOptions where
  max_line_length : Nat
  max_words_per_entry : Option Nat
  speaker_gap_threshold : ℚ
deriving DecidableEq, Repr

/-- One subtitle entry as written to the file: its sequence number, the raw
phrase times (rendered through `format_srt_time` on the time line), the
speaker-tagged wrapped text block, and the value of the `words_in_phrase`
counter at flush time. -/
structure SrtEntry where
  index : Nat
  start : Option ℚ
  end_ : Option ℚ
  text : String
  words : Nat
deriving DecidableEq, Repr

/-- The loop state of `save_to_srt` (lines 81-87), plus the entries emitted
so far (most recent first). -/
structure SrtState where
  srt_sequence : Nat
  phrase_start_time : Option ℚ
  phrase_end_time : Option ℚ
  phrase_text : String
  current_speaker_srt : Option String
  words_in_phrase : Nat
  last_word_end_time : ℚ
  entries : List SrtEntry
deriving DecidableEq, Repr

/-- The state before the first iteration. -/
def initSrtState : SrtState := ⟨1, none, none, "", none, 0, 0, []⟩

/-- Python's f-string rendering of the current speaker (`None` before any
phrase started; entries are only emitted with a phrase open, so the real
file never shows it). -/
def speakerStr : Option String → String
  | some s => s
  | none => "None"

/-- The entry flushed from the current state: sequence number, phrase time
range, and the wrapped `"[speaker]: text"` block (lines 103-110/134-141). -/
def mkEntry (opts : SrtOptions) (st : SrtState) : SrtEntry :=
  ⟨st.srt_sequence, st.phrase_start_time, st.phrase_end_time,
    wrapTextToLines
      ("[" ++ speakerStr st.current_speaker_srt ++ "]: " ++ pyStrip st.phrase_text)
      opts.max_line_length,
    st.words_in_phrase⟩

/-- One iteration of the `for i, word_info in enumerate(aligned_words)`
loop of `save_to_srt`: skip malformed words, flush the open phrase when a
break condition fires, then start or extend a phrase. -/
def processWord (opts : SrtOptions) (i : Nat) (w : WordInfo) (st : SrtState) :
    SrtState :=
  match w.start, w.end_, w.text, w.speaker with
  | some word_start_time, some word_end_time, some text, some speaker =>
    if word_end_time < word_start_time then st
    else
      let st1 :=
        if st.phrase_text ≠ "" ∧
            (st.current_speaker_srt ≠ some speaker ∨
             (0 < i ∧ opts.speaker_gap_threshold <
                word_start_time - st.last_word_end_time) ∨
             (opts.max_words_per_entry ≠ none ∧
                opts.max_words_per_entry.getD 0 ≤ st.words_in_phrase)) then
          { st with entries := mkEntry opts st :: st.entries,
                    srt_sequence := st.srt_sequence + 1,
                    phrase_text := "" }
        else st
      let st2 :=
        if st1.phrase_text = "" then
          { st1 with current_speaker_srt := some speaker,
                     phrase_start_time := some word_start_time,
                     phrase_text := text,
                     words_in_phrase := 1,
                     phrase_end_time := some word_end_time }
        else if st.current_speaker_srt = some speaker then
          { st1 with phrase_text := st1.phrase_text ++ " " ++ text,
                     phrase_end_time := some word_end_time,
                     words_in_phrase := st1.words_in_phrase + 1 }
        else
          { st1 with phrase_text := text,
                     words_in_phrase := 1,
                     current_speaker_srt := some speaker,
                     phrase_start_time := some word_start_time,
                     phrase_end_time := some word_end_time }
      { st2 with last_word_end_time := word_end_time }
  | _, _, _, _ => st

/-- The word loop of `save_to_srt` over the remaining words, `i` being the
`enumerate` index of the head. -/
def srtLoop (opts : SrtOptions) : List WordInfo → Nat → SrtState → SrtState
  | [], _, st => st
  | w :: ws, i, st => srtLoop opts ws (i + 1) (processWord opts i w st)

/-- The subtitle entries `save_to_srt` writes for `aligned_words` (including
the final flush of an open phrase), in file order. -/
def saveToSrtEntries (opts : SrtOptions) (aligned_words : List WordInfo) :
    List SrtEntry :=
  let final := srtLoop opts aligned_words 0 initSrtState
  (if final.phrase_text ≠ "" then mkEntry opts final :: final.entries
   else final.entries).reverse

/-- The validity test a word must pass to survive the two `continue`s of
`save_to_srt` (all four keys present, `start`/`end` non-`None`, and not
`start > end`). -/
def validWord (w : WordInfo) : Bool :=
  w.start.isSome && w.end_.isSome && w.text.isSome && w.speaker.isSome &&
    decide (w.start.getD 0 ≤ w.end_.getD 0)

/-! ### C9: malformed words perturb nothing -/

/-- A malformed word is skipped: the loop state is untouched. -/
lemma processWord_invalid (opts : SrtOptions) (i : Nat) (w : WordInfo)
    (st : SrtState) (h : validWord w = false) : processWord opts i w st = st := by
  rcases w with ⟨os, oe, ot, osp⟩
  cases os with
  | none => rfl
  | some ws =>
    cases oe with
    | none => rfl
    | some we =>
      cases ot with
      | none => rfl
      | some tx =>
        cases osp with
        | none => rfl
        | some sp =>
          simp only [validWord, Option.isSome_some, Option.getD_some,
            Bool.true_and, Bool.and_eq_false_iff, decide_eq_false_iff_not] at h
          have hlt : we < ws := not_le.mp h
          simp only [processWord]
          rw [if_pos hlt]

/-- Starting a fresh phrase (empty `phrase_text`): no break condition can
fire, and the word opens the phrase — independently of the index `i`. -/
lemma processWord_start (opts : SrtOptions) (i : Nat) (ws we : ℚ)
    (tx sp : String) (st : SrtState) (hv : ¬ we < ws)
    (hempty : st.phrase_text = "") :
    processWord opts i ⟨some ws, some we, some tx, some sp⟩ st =
      { st with current_speaker_srt := some sp,
                phrase_start_time := some ws,
                phrase_text := tx,
                words_in_phrase := 1,
                phrase_end_time := some we,
                last_word_end_time := we } := by
  simp only [processWord]
  rw [if_neg hv]
  simp [hempty]

/-- `processWord` reads its index only through `0 < i`. -/
lemma processWord_index_congr (opts : SrtOptions) (i j : Nat) (w : WordInfo)
    (st : SrtState) (hij : (0 < i) = (0 < j)) :
    processWord opts i w st = processWord opts j w st := by
  rcases w with ⟨os, oe, ot, osp⟩
  cases os <;> cases oe <;> cases ot <;> cases osp <;> try rfl
  simp only [processWord, hij]

/-- On an empty open phrase, `processWord` does not depend on the index at
all (the only index use sits inside the break test, which is guarded by a
non-empty phrase). -/
lemma processWord_empty_phrase (opts : SrtOptions) (i j : Nat) (w : WordInfo)
    (st : SrtState) (hempty : st.phrase_text = "") :
    processWord opts i w st = processWord opts j w st := by
  by_cases hval : validWord w = true
  · rcases w with ⟨os, oe, ot, osp⟩
    cases os with
    | none => simp [validWord] at hval
    | some ws =>
      cases oe with
      | none => simp [validWord] at hval
      | some we =>
        cases ot with
        | none => simp [validWord] at hval
        | some tx =>
          cases osp with
          | none => simp [validWord] at hval
          | some sp =>
            simp only [validWord, Option.isSome_some, Option.getD_some,
              Bool.true_and, decide_eq_true_eq] at hval
            have hv : ¬ we < ws := not_lt.mpr hval
            rw [processWord_start opts i ws we tx sp st hv hempty,
              processWord_start opts j ws we tx sp st hv hempty]
  · have h := Bool.eq_false_iff.mpr hval
    rw [processWord_invalid opts i w st h, processWord_invalid opts j w st h]

/-- The whole loop reads the running index only through `0 < i`. -/
lemma srtLoop_index_congr (opts : SrtOptions) :
    ∀ (ws : List WordInfo) (i j : Nat) (st : SrtState), (0 < i) = (0 < j) →
      srtLoop opts ws i st = srtLoop opts ws j st := by
  intro ws
  induction ws with
  | nil => intro i j st _; rfl
  | cons w ws ih =>
    intro i j st hij
    simp only [srtLoop]
    rw [processWord_index_congr opts i j w st hij]
    exact ih (i + 1) (j + 1) _ (by simp)

/-- Starting the loop on an empty open phrase, the starting index is
irrelevant. -/
lemma srtLoop_empty_phrase (opts : SrtOptions) (ws : List WordInfo)
    (i j : Nat) (st : SrtState) (hempty : st.phrase_text = "") :
    srtLoop opts ws i st = srtLoop opts ws j st := by
  cases ws with
  | nil => rfl
  | cons w ws =>
    simp only [srtLoop]
    rw [processWord_empty_phrase opts i j w st hempty]
    exact srtLoop_index_congr opts ws (i + 1) (j + 1) _ (by simp)

/-- Past the first position, running the loop over the raw words equals
running it over the valid words only. -/
lemma srtLoop_filter (opts : SrtOptions) :
    ∀ (ws : List WordInfo) (i j : Nat) (st : SrtState), 0 < i → 0 < j →
      srtLoop opts ws i st = srtLoop opts (ws.filter validWord) j st := by
  intro ws
  induction ws with
  | nil => intro i j st _ _; rfl
  | cons w ws ih =>
    intro i j st hi hj
    by_cases hval : validWord w = true
    · rw [List.filter_cons_of_pos hval]
      simp only [srtLoop]
      rw [processWord_index_congr opts i j w st
        (propext ⟨fun _ => hj, fun _ => hi⟩)]
      exact ih (i + 1) (j + 1) _ (by omega) (by omega)
    · rw [List.filter_cons_of_neg (by simpa using hval)]
      simp only [srtLoop]
      rw [processWord_invalid opts i w st (Bool.eq_false_iff.mpr hval)]
      exact ih (i + 1) j st (by omega) hj

/-- From the initial state, the loop over the raw words equals the loop
over the valid words. -/
lemma srtLoop_eq_filter_from_empty (opts : SrtOptions) :
    ∀ (ws : List WordInfo) (st : SrtState), st.phrase_text = "" →
      srtLoop opts ws 0 st = srtLoop opts (ws.filter validWord) 0 st := by
  intro ws
  induction ws with
  | nil => intro st _; rfl
  | cons w ws ih =>
    intro st hempty
    by_cases hval : validWord w = true
    · rw [List.filter_cons_of_pos hval]
      simp only [srtLoop]
      exact srtLoop_filter opts ws 1 1 _ (by omega) (by omega)
    · rw [List.filter_cons_of_neg (by simpa using hval)]
      simp only [srtLoop]
      rw [processWord_invalid opts 0 w st (Bool.eq_false_iff.mpr hval)]
      rw [srtLoop_empty_phrase opts ws 1 0 st hempty]
      exact ih st hempty

/-- **C9.** Malformed words (missing `start`/`end`/`text`/`speaker`, or
`start > end`) are skipped before any break condition is evaluated and
leave the loop state untouched; the subtitle entries produced for the raw
word stream are exactly those produced after deleting every malformed word
from the input. -/
theorem save_to_srt_skips_malformed (opts : SrtOptions) (ws : List WordInfo) :
    saveToSrtEntries opts ws = saveToSrtEntries opts (ws.filter validWord) ∧
    (∀ (st : SrtState) (i : Nat) (w : WordInfo), validWord w = false →
      processWord opts i w st = st) := by
  constructor
  · unfold saveToSrtEntries
    rw [srtLoop_eq_filter_from_empty opts ws initSrtState rfl]
  · intro st i w h
    exact processWord_invalid opts i w st h

/-- Witness for C9: a word with all keys missing and a reversed-time word
contribute nothing amid two valid words. -/
theorem save_to_srt_skips_malformed_witness :
    saveToSrtEntries ⟨42, some 10, 1⟩
        [⟨none, none, none, none⟩, ⟨some 0, some 1, some "hi", some "A"⟩,
         ⟨some 6, some 5, some "rev", some "A"⟩,
         ⟨some 1, some 2, some "there", some "A"⟩] =
      saveToSrtEntries ⟨42, some 10, 1⟩
        (([⟨none, none, none, none⟩, ⟨some 0, some 1, some "hi", some "A"⟩,
           ⟨some 6, some 5, some "rev", some "A"⟩,
           ⟨some 1, some 2, some "there", some "A"⟩] : List WordInfo).filter
          validWord) ∧
    processWord ⟨42, some 10, 1⟩ 0 ⟨none, none, none, none⟩ initSrtState =
      initSrtState :=
  ⟨(save_to_srt_skips_malformed _ _).1,
   (save_to_srt_skips_malformed ⟨42, some 10, 1⟩ []).2 initSrtState 0
     ⟨none, none, none, none⟩ rfl⟩

/-! ### C8: the length cap splits 11 words into 10 + 1 -/

/-- A string with a space glued in the middle is never empty. -/
lemma append_space_ne_empty (p t : String) : p ++ " " ++ t ≠ "" := by
  intro h
  have hlen := congrArg String.length h
  rw [String.length_append, String.length_append] at hlen
  have h1 : (" " : String).length = 1 := rfl
  have h2 : ("" : String).length = 0 := rfl
  omega

/-- Appending to an open phrase: same speaker, no long gap, word count
below the cap. -/
lemma processWord_append (opts : SrtOptions) (i : Nat) (ws we : ℚ)
    (tx sp : String) (st : SrtState) (hv : ¬ we < ws)
    (hph : st.phrase_text ≠ "")
    (hsp : st.current_speaker_srt = some sp)
    (hgap : ¬ (0 < i ∧ opts.speaker_gap_threshold <
      ws - st.last_word_end_time))
    (hcap : ¬ (opts.max_words_per_entry ≠ none ∧
      opts.max_words_per_entry.getD 0 ≤ st.words_in_phrase)) :
    processWord opts i ⟨some ws, some we, some tx, some sp⟩ st =
      { st with phrase_text := st.phrase_text ++ " " ++ tx,
                phrase_end_time := some we,
                words_in_phrase := st.words_in_phrase + 1,
                last_word_end_time := we } := by
  simp only [processWord]
  rw [if_neg hv]
  simp [hph, hsp, hgap, hcap]

/-- The length cap fires: the open phrase is flushed as an entry and the
word starts a fresh phrase. -/
lemma processWord_flush_restart (opts : SrtOptions) (i : Nat) (ws we : ℚ)
    (tx sp : String) (st : SrtState) (hv : ¬ we < ws)
    (hph : st.phrase_text ≠ "")
    (hcap : opts.max_words_per_entry ≠ none ∧
      opts.max_words_per_entry.getD 0 ≤ st.words_in_phrase) :
    processWord opts i ⟨some ws, some we, some tx, some sp⟩ st =
      { st with entries := mkEntry opts st :: st.entries,
                srt_sequence := st.srt_sequence + 1,
                current_speaker_srt := some sp,
                phrase_start_time := some ws,
                phrase_text := tx,
                words_in_phrase := 1,
                phrase_end_time := some we,
                last_word_end_time := we } := by
  simp only [processWord]
  rw [if_neg hv]
  simp [hph, hcap]

/-- **C8.** Eleven contiguous valid same-speaker words with no long gaps
and `max_words_per_entry = 10` produce exactly two subtitle entries: the
first holds exactly 10 words (spanning the first ten start/end times), the
second holds the remaining word — the cap fires before the 11th word is
appended. -/
theorem subtitle_length_cap (L : Nat) (gth : ℚ) (a b : ℕ → ℚ) (t : ℕ → String)
    (s : String)
    (hv : ∀ k, k < 11 → a k ≤ b k)
    (ht : ∀ k, k < 11 → t k ≠ "")
    (hgap : ∀ k, 0 < k → k < 11 → a k - b (k - 1) ≤ gth) :
    (saveToSrtEntries ⟨L, some 10, gth⟩
        ((List.range 11).map
          (fun k => ⟨some (a k), some (b k), some (t k), some s⟩))).map
        (fun e => (e.index, e.words, e.start, e.end_)) =
      [(1, 10, some (a 0), some (b 9)), (2, 1, some (a 10), some (b 10))] := by
  have hrange : List.range 11 = [0, 1, 2, 3, 4, 5, 6, 7, 8, 9, 10] := rfl
  rw [hrange]
  simp only [List.map_cons, List.map_nil]
  have h0 : processWord ⟨L, some 10, gth⟩ 0
      ⟨some (a 0), some (b 0), some (t 0), some s⟩ initSrtState = (⟨1, some (a 0), some (b 0), t 0, some s, 1, b 0, []⟩ : SrtState) :=
    processWord_start _ 0 (a 0) (b 0) (t 0) s initSrtState
      (not_lt.mpr (hv 0 (by norm_num))) rfl
  have h1 : processWord ⟨L, some 10, gth⟩ 1
      ⟨some (a 1), some (b 1), some (t 1), some s⟩ (⟨1, some (a 0), some (b 0), t 0, some s, 1, b 0, []⟩ : SrtState) = (⟨1, some (a 0), some (b 1), t 0 ++ " " ++ t 1, some s, 2, b 1, []⟩ : SrtState) := by
    rw [processWord_append _ 1 (a 1) (b 1) (t 1) s _
      (not_lt.mpr (hv 1 (by norm_num)))
      (ht 0 (by norm_num))
      rfl
      (by
        intro hc
        refine absurd hc.2 (not_lt.mpr ?_)
        show a 1 - b 0 ≤ gth
        have hg := hgap 1 (by norm_num) (by norm_num)
        norm_num at hg
        linarith)
      (by intro hc; simp at hc)]
  have h2 : processWord ⟨L, some 10, gth⟩ 2
      ⟨some (a 2), some (b 2), some (t 2), some s⟩ (⟨1, some (a 0), some (b 1), t 0 ++ " " ++ t 1, some s, 2, b 1, []⟩ : SrtState) = (⟨1, some (a 0), some (b 2), t 0 ++ " " ++ t 1 ++ " " ++ t 2, some s, 3, b 2, []⟩ : SrtState) := by
    rw [processWord_append _ 2 (a 2) (b 2) (t 2) s _
      (not_lt.mpr (hv 2 (by norm_num)))
      (append_space_ne_empty _ (t 1))
      rfl
      (by
        intro hc
        refine absurd hc.2 (not_lt.mpr ?_)
        show a 2 - b 1 ≤ gth
        have hg := hgap 2 (by norm_num) (by norm_num)
        norm_num at hg
        linarith)
      (by intro hc; simp at hc)]
  have h3 : processWord ⟨L, some 10, gth⟩ 3
      ⟨some (a 3), some (b 3), some (t 3), some s⟩ (⟨1, some (a 0), some (b 2), t 0 ++ " " ++ t 1 ++ " " ++ t 2, some s, 3, b 2, []⟩ : SrtState) = (⟨1, some (a 0), some (b 3), t 0 ++ " " ++ t 1 ++ " " ++ t 2 ++ " " ++ t 3, some s, 4, b 3, []⟩ : SrtState) := by
    rw [processWord_append _ 3 (a 3) (b 3) (t 3) s _
      (not_lt.mpr (hv 3 (by norm_num)))
      (append_space_ne_empty _ (t 2))
      rfl
      (by
        intro hc
        refine absurd hc.2 (not_lt.mpr ?_)
        show a 3 - b 2 ≤ gth
        have hg := hgap 3 (by norm_num) (by norm_num)
        norm_num at hg
        linarith)
      (by intro hc; simp at hc)]
  have h4 : processWord ⟨L, some 10, gth⟩ 4
      ⟨some (a 4), some (b 4), some (t 4), some s⟩ (⟨1, some (a 0), some (b 3), t 0 ++ " " ++ t 1 ++ " " ++ t 2 ++ " " ++ t 3, some s, 4, b 3, []⟩ : SrtState) = (⟨1, some (a 0), some (b 4), t 0 ++ " " ++ t 1 ++ " " ++ t 2 ++ " " ++ t 3 ++ " " ++ t 4, some s, 5, b 4, []⟩ : SrtState) := by
    rw [processWord_append _ 4 (a 4) (b 4) (t 4) s _
      (not_lt.mpr (hv 4 (by norm_num)))
      (append_space_ne_empty _ (t 3))
      rfl
      (by
        intro hc
        refine absurd hc.2 (not_lt.mpr ?_)
        show a 4 - b 3 ≤ gth
        have hg := hgap 4 (by norm_num) (by norm_num)
        norm_num at hg
        linarith)
      (by intro hc; simp at hc)]
  have h5 : processWord ⟨L, some 10, gth⟩ 5
      ⟨some (a 5), some (b 5), some (t 5), some s⟩ (⟨1, some (a 0), some (b 4), t 0 ++ " " ++ t 1 ++ " " ++ t 2 ++ " " ++ t 3 ++ " " ++ t 4, some s, 5, b 4, []⟩ : SrtState) = (⟨1, some (a 0), some (b 5), t 0 ++ " " ++ t 1 ++ " " ++ t 2 ++ " " ++ t 3 ++ " " ++ t 4 ++ " " ++ t 5, some s, 6, b 5, []⟩ : SrtState) := by
    rw [processWord_append _ 5 (a 5) (b 5) (t 5) s _
      (not_lt.mpr (hv 5 (by norm_num)))
      (append_space_ne_empty _ (t 4))
      rfl
      (by
        intro hc
        refine absurd hc.2 (not_lt.mpr ?_)
        show a 5 - b 4 ≤ gth
        have hg := hgap 5 (by norm_num) (by norm_num)
        norm_num at hg
        linarith)
      (by intro hc; simp at hc)]
  have h6 : processWord ⟨L, some 10, gth⟩ 6
      ⟨some (a 6), some (b 6), some (t 6), some s⟩ (⟨1, some (a 0), some (b 5), t 0 ++ " " ++ t 1 ++ " " ++ t 2 ++ " " ++ t 3 ++ " " ++ t 4 ++ " " ++ t 5, some s, 6, b 5, []⟩ : SrtState) = (⟨1, some (a 0), some (b 6), t 0 ++ " " ++ t 1 ++ " " ++ t 2 ++ " " ++ t 3 ++ " " ++ t 4 ++ " " ++ t 5 ++ " " ++ t 6, some s, 7, b 6, []⟩ : SrtState) := by
    rw [processWord_append _ 6 (a 6) (b 6) (t 6) s _
      (not_lt.mpr (hv 6 (by norm_num)))
      (append_space_ne_empty _ (t 5))
      rfl
      (by
        intro hc
        refine absurd hc.2 (not_lt.mpr ?_)
        show a 6 - b 5 ≤ gth
        have hg := hgap 6 (by norm_num) (by norm_num)
        norm_num at hg
        linarith)
      (by intro hc; simp at hc)]
  have h7 : processWord ⟨L, some 10, gth⟩ 7
      ⟨some (a 7), some (b 7), some (t 7), some s⟩ (⟨1, some (a 0), some (b 6), t 0 ++ " " ++ t 1 ++ " " ++ t 2 ++ " " ++ t 3 ++ " " ++ t 4 ++ " " ++ t 5 ++ " " ++ t 6, some s, 7, b 6, []⟩ : SrtState) = (⟨1, some (a 0), some (b 7), t 0 ++ " " ++ t 1 ++ " " ++ t 2 ++ " " ++ t 3 ++ " " ++ t 4 ++ " " ++ t 5 ++ " " ++ t 6 ++ " " ++ t 7, some s, 8, b 7, []⟩ : SrtState) := by
    rw [processWord_append _ 7 (a 7) (b 7) (t 7) s _
      (not_lt.mpr (hv 7 (by norm_num)))
      (append_space_ne_empty _ (t 6))
      rfl
      (by
        intro hc
        refine absurd hc.2 (not_lt.mpr ?_)
        show a 7 - b 6 ≤ gth
        have hg := hgap 7 (by norm_num) (by norm_num)
        norm_num at hg
        linarith)
      (by intro hc; simp at hc)]
  have h8 : processWord ⟨L, some 10, gth⟩ 8
      ⟨some (a 8), some (b 8), some (t 8), some s⟩ (⟨1, some (a 0), some (b 7), t 0 ++ " " ++ t 1 ++ " " ++ t 2 ++ " " ++ t 3 ++ " " ++ t 4 ++ " " ++ t 5 ++ " " ++ t 6 ++ " " ++ t 7, some s, 8, b 7, []⟩ : SrtState) = (⟨1, some (a 0), some (b 8), t 0 ++ " " ++ t 1 ++ " " ++ t 2 ++ " " ++ t 3 ++ " " ++ t 4 ++ " " ++ t 5 ++ " " ++ t 6 ++ " " ++ t 7 ++ " " ++ t 8, some s, 9, b 8, []⟩ : SrtState) := by
    rw [processWord_append _ 8 (a 8) (b 8) (t 8) s _
      (not_lt.mpr (hv 8 (by norm_num)))
      (append_space_ne_empty _ (t 7))
      rfl
      (by
        intro hc
        refine absurd hc.2 (not_lt.mpr ?_)
        show a 8 - b 7 ≤ gth
        have hg := hgap 8 (by norm_num) (by norm_num)
        norm_num at hg
        linarith)
      (by intro hc; simp at hc)]
  have h9 : processWord ⟨L, some 10, gth⟩ 9
      ⟨some (a 9), some (b 9), some (t 9), some s⟩ (⟨1, some (a 0), some (b 8), t 0 ++ " " ++ t 1 ++ " " ++ t 2 ++ " " ++ t 3 ++ " " ++ t 4 ++ " " ++ t 5 ++ " " ++ t 6 ++ " " ++ t 7 ++ " " ++ t 8, some s, 9, b 8, []⟩ : SrtState) = (⟨1, some (a 0), some (b 9), t 0 ++ " " ++ t 1 ++ " " ++ t 2 ++ " " ++ t 3 ++ " " ++ t 4 ++ " " ++ t 5 ++ " " ++ t 6 ++ " " ++ t 7 ++ " " ++ t 8 ++ " " ++ t 9, some s, 10, b 9, []⟩ : SrtState) := by
    rw [processWord_append _ 9 (a 9) (b 9) (t 9) s _
      (not_lt.mpr (hv 9 (by norm_num)))
      (append_space_ne_empty _ (t 8))
      rfl
      (by
        intro hc
        refine absurd hc.2 (not_lt.mpr ?_)
        show a 9 - b 8 ≤ gth
        have hg := hgap 9 (by norm_num) (by norm_num)
        norm_num at hg
        linarith)
      (by intro hc; simp at hc)]
  have h10 : processWord ⟨L, some 10, gth⟩ 10
      ⟨some (a 10), some (b 10), some (t 10), some s⟩ (⟨1, some (a 0), some (b 9), t 0 ++ " " ++ t 1 ++ " " ++ t 2 ++ " " ++ t 3 ++ " " ++ t 4 ++ " " ++ t 5 ++ " " ++ t 6 ++ " " ++ t 7 ++ " " ++ t 8 ++ " " ++ t 9, some s, 10, b 9, []⟩ : SrtState) = (⟨2, some (a 10), some (b 10), t 10, some s, 1, b 10, [mkEntry ⟨L, some 10, gth⟩ (⟨1, some (a 0), some (b 9), t 0 ++ " " ++ t 1 ++ " " ++ t 2 ++ " " ++ t 3 ++ " " ++ t 4 ++ " " ++ t 5 ++ " " ++ t 6 ++ " " ++ t 7 ++ " " ++ t 8 ++ " " ++ t 9, some s, 10, b 9, []⟩ : SrtState)]⟩ : SrtState) := by
    rw [processWord_flush_restart _ 10 (a 10) (b 10) (t 10) s _
      (not_lt.mpr (hv 10 (by norm_num)))
      (append_space_ne_empty _ (t 9))
      (by simp)]
  have hrun : srtLoop ⟨L, some 10, gth⟩
      [⟨some (a 0), some (b 0), some (t 0), some s⟩,
       ⟨some (a 1), some (b 1), some (t 1), some s⟩,
       ⟨some (a 2), some (b 2), some (t 2), some s⟩,
       ⟨some (a 3), some (b 3), some (t 3), some s⟩,
       ⟨some (a 4), some (b 4), some (t 4), some s⟩,
       ⟨some (a 5), some (b 5), some (t 5), some s⟩,
       ⟨some (a 6), some (b 6), some (t 6), some s⟩,
       ⟨some (a 7), some (b 7), some (t 7), some s⟩,
       ⟨some (a 8), some (b 8), some (t 8), some s⟩,
       ⟨some (a 9), some (b 9), some (t 9), some s⟩,
       ⟨some (a 10), some (b 10), some (t 10), some s⟩] 0 initSrtState =
      (⟨2, some (a 10), some (b 10), t 10, some s, 1, b 10, [mkEntry ⟨L, some 10, gth⟩ (⟨1, some (a 0), some (b 9), t 0 ++ " " ++ t 1 ++ " " ++ t 2 ++ " " ++ t 3 ++ " " ++ t 4 ++ " " ++ t 5 ++ " " ++ t 6 ++ " " ++ t 7 ++ " " ++ t 8 ++ " " ++ t 9, some s, 10, b 9, []⟩ : SrtState)]⟩ : SrtState) := by
    simp only [srtLoop]
    rw [h0, h1, h2, h3, h4, h5, h6, h7, h8, h9, h10]
  simp only [saveToSrtEntries, hrun]
  simp [mkEntry, ht 10 (by norm_num)]

/-- Witness for C8: eleven words at integer seconds `k..k` with texts `"w"`,
speaker `"S"`, gap threshold 1. -/
theorem subtitle_length_cap_witness :
    (saveToSrtEntries ⟨42, some 10, 1⟩
        ((List.range 11).map
          (fun k => ⟨some ((k : ℚ)), some ((k : ℚ)), some "w", some "S"⟩))).map
        (fun e => (e.index, e.words, e.start, e.end_)) =
      [(1, 10, some (((0 : ℕ) : ℚ)), some (((9 : ℕ) : ℚ))),
       (2, 1, some (((10 : ℕ) : ℚ)), some (((10 : ℕ) : ℚ)))] :=
  subtitle_length_cap 42 1 (fun k => (k : ℚ)) (fun k => (k : ℚ)) (fun _ => "w")
    "S" (fun _ _ => le_refl _) (fun _ _ => by simp)
    (fun k hk _ => by
      show (k : ℚ) - ((k - 1 : ℕ) : ℚ) ≤ 1
      rw [Nat.cast_sub hk]
      push_cast
      linarith)

/-! ### C7: `format_srt_time` -/

/-- `Int.fmod` of a natural by 60 is the natural remainder. -/
lemma int_fmod_60 (m : ℕ) : Int.fmod (m : ℤ) 60 = ((m % 60 : ℕ) : ℤ) := by
  rw [Int.fmod_eq_emod _ (by norm_num)]
  exact_mod_cast rfl

/-- `Int.fdiv` of a natural by 60 is the natural quotient. -/
lemma int_fdiv_60 (m : ℕ) : Int.fdiv (m : ℤ) 60 = ((m / 60 : ℕ) : ℤ) := by
  rw [Int.fdiv_eq_ediv _ (by norm_num)]
  exact_mod_cast rfl

/-- `Int.fdiv` of a natural by 3600 is the natural quotient. -/
lemma int_fdiv_3600 (m : ℕ) : Int.fdiv (m : ℤ) 3600 = ((m / 3600 : ℕ) : ℤ) := by
  rw [Int.fdiv_eq_ediv _ (by norm_num)]
  exact_mod_cast rfl

/-- **C7.** `format_srt_time` renders every non-negative finite value as
zero-padded `HH:MM:SS,mmm` (minutes and seconds below 60, milliseconds
below 1000, the three clock fields decomposing the floor of the input, the
millisecond field truncating the fractional part), returns the fixed string
`"00:00:00,000"` for NaN, the infinities and `None`, and in particular maps
`3661.123` to `"01:01:01,123"` and `0` to `"00:00:00,000"`. -/
theorem format_srt_time_spec :
    (∀ q : ℚ, 0 ≤ q → ∃ h m s ms : ℕ, m < 60 ∧ s < 60 ∧ ms < 1000 ∧
      ((h : ℤ) * 3600 + (m : ℤ) * 60 + (s : ℤ) = ⌊q⌋) ∧
      ((ms : ℚ) ≤ (q - ⌊q⌋) * 1000 ∧ (q - ⌊q⌋) * 1000 < (ms : ℚ) + 1) ∧
      formatSrtTime (PySeconds.num q) =
        zpad 2 (h : ℤ) ++ ":" ++ zpad 2 (m : ℤ) ++ ":" ++ zpad 2 (s : ℤ) ++
          "," ++ zpad 3 (ms : ℤ)) ∧
    formatSrtTime PySeconds.nan = "00:00:00,000" ∧
    formatSrtTime PySeconds.inf = "00:00:00,000" ∧
    formatSrtTime PySeconds.ninf = "00:00:00,000" ∧
    formatSrtTime PySeconds.none_ = "00:00:00,000" ∧
    formatSrtTime (PySeconds.num (3661123/1000)) = "01:01:01,123" ∧
    formatSrtTime (PySeconds.num 0) = "00:00:00,000" := by
  refine ⟨?_, rfl, rfl, rfl, rfl, ?_, ?_⟩
  · intro q hq
    have hfl0 : (0 : ℤ) ≤ ⌊q⌋ := Int.floor_nonneg.mpr hq
    set n : ℕ := ⌊q⌋.toNat with hn
    have hfl : ⌊q⌋ = (n : ℤ) := (Int.toNat_of_nonneg hfl0).symm
    have htr : pyTrunc q = (n : ℤ) := by
      rw [pyTrunc, if_pos hq, hfl]
    have hfr0 : (0 : ℚ) ≤ q - ⌊q⌋ := by
      have := Int.floor_le q
      linarith
    have hfr1 : q - ⌊q⌋ < 1 := by
      have := Int.lt_floor_add_one q
      linarith
    have hms0 : (0 : ℤ) ≤ ⌊(q - ⌊q⌋) * 1000⌋ :=
      Int.floor_nonneg.mpr (by positivity)
    have hmslt : ⌊(q - ⌊q⌋) * 1000⌋ < 1000 := by
      rw [Int.floor_lt]
      push_cast
      nlinarith
    set ms : ℕ := (⌊(q - ⌊q⌋) * 1000⌋).toNat with hms
    have hmsz : ⌊(q - ⌊q⌋) * 1000⌋ = (ms : ℤ) := (Int.toNat_of_nonneg hms0).symm
    have htrms : pyTrunc ((q - ((n : ℤ) : ℚ)) * 1000) = (ms : ℤ) := by
      have hcast : ((n : ℤ) : ℚ) = ((⌊q⌋ : ℤ) : ℚ) := by
        rw [hfl]
      rw [pyTrunc, hcast, if_pos (by positivity), hmsz]
    refine ⟨n / 3600, n / 60 % 60, n % 60, ms, ?_, ?_, ?_, ?_, ⟨?_, ?_⟩, ?_⟩
    · omega
    · omega
    · omega
    · rw [hfl]
      push_cast
      omega
    · have h := Int.floor_le ((q - ⌊q⌋) * 1000)
      rw [hmsz] at h
      exact_mod_cast h
    · have h := Int.lt_floor_add_one ((q - ⌊q⌋) * 1000)
      rw [hmsz] at h
      exact_mod_cast h
    · simp only [formatSrtTime, htr, htrms]
      rw [int_fdiv_3600 n, int_fmod_60 n, int_fdiv_60 n, int_fmod_60 (n / 60)]
      rw [max_eq_right (Int.natCast_nonneg _), max_eq_right (Int.natCast_nonneg _),
        max_eq_right (Int.natCast_nonneg _), max_eq_right (Int.natCast_nonneg _)]
  · have h1 : pyTrunc (3661123/1000 : ℚ) = 3661 := by
      rw [pyTrunc, if_pos (by norm_num)]
      rw [Int.floor_eq_iff]
      norm_num
    have h2 : ((3661123 : ℚ)/1000 - ((3661 : ℤ) : ℚ)) * 1000 = 123 := by
      norm_num
    have h3 : pyTrunc (123 : ℚ) = 123 := by
      rw [pyTrunc, if_pos (by norm_num)]
      norm_num
    simp only [formatSrtTime, h1, h2, h3]
    rfl
  · have h1 : pyTrunc (0 : ℚ) = 0 := by
      rw [pyTrunc, if_pos (by norm_num)]
      norm_num
    have h2 : ((0 : ℚ) - ((0 : ℤ) : ℚ)) * 1000 = 0 := by norm_num
    simp only [formatSrtTime, h1, h2]
    rfl

/-- Witness for C7 at `q = 3661.123`: the clock components exist and the
rendered string agrees. -/
theorem format_srt_time_spec_witness :
    (0 : ℚ) ≤ 3661123/1000 ∧
    (∃ h m s ms : ℕ, m < 60 ∧ s < 60 ∧ ms < 1000 ∧
      ((h : ℤ) * 3600 + (m : ℤ) * 60 + (s : ℤ) = ⌊(3661123/1000 : ℚ)⌋) ∧
      ((ms : ℚ) ≤ ((3661123/1000 : ℚ) - ⌊(3661123/1000 : ℚ)⌋) * 1000 ∧
        ((3661123/1000 : ℚ) - ⌊(3661123/1000 : ℚ)⌋) * 1000 < (ms : ℚ) + 1) ∧
      formatSrtTime (PySeconds.num (3661123/1000)) =
        zpad 2 (h : ℤ) ++ ":" ++ zpad 2 (m : ℤ) ++ ":" ++ zpad 2 (s : ℤ) ++
          "," ++ zpad 3 (ms : ℤ)) :=
  ⟨by norm_num, format_srt_time_spec.1 (3661123/1000) (by norm_num)⟩

/-! ### C10: word wrap covers the speaker tag -/

/-- Unfolding `joinSp` over a cons with a non-empty tail. -/
lemma joinSp_cons (x : String) (l : List String) (h : l ≠ []) :
    joinSp (x :: l) = x ++ " " ++ joinSp l := by
  cases l with
  | nil => simp at h
  | cons y ys => rfl

/-- `" ".join` over a snoc: the new word costs one separator plus itself. -/
lemma joinSp_append_singleton (cur : List String) (w : String) (h : cur ≠ []) :
    joinSp (cur ++ [w]) = joinSp cur ++ " " ++ w := by
  induction cur with
  | nil => simp at h
  | cons x xs ih =>
    cases xs with
    | nil => rfl
    | cons y ys =>
      rw [show (x :: (y :: ys)) ++ [w] = x :: ((y :: ys) ++ [w]) from rfl]
      rw [joinSp_cons x ((y :: ys) ++ [w]) (by simp)]
      rw [ih (by simp)]
      rw [joinSp_cons x (y :: ys) (by simp)]
      rw [← String.append_assoc, ← String.append_assoc]

/-- The line-packing loop only ever appends to its accumulator. -/
lemma wrapWordsAux_acc (L : Nat) :
    ∀ (ws cur : List String) (acc : List (List String)),
      wrapWordsAux L ws cur acc = acc ++ wrapWordsAux L ws cur [] := by
  intro ws
  induction ws with
  | nil =>
    intro cur acc
    by_cases h : cur = [] <;> simp [wrapWordsAux, h]
  | cons w ws ih =>
    intro cur acc
    simp only [wrapWordsAux]
    by_cases h1 : cur = []
    · simp only [if_pos h1]
      exact ih [w] acc
    · simp only [if_neg h1]
      by_cases h2 : (joinSp cur).length + w.length + 1 ≤ L
      · simp only [if_pos h2]
        exact ih (cur ++ [w]) acc
      · simp only [if_neg h2]
        rw [ih [w] (acc ++ [cur]), ih [w] ([] ++ [cur])]
        simp [List.append_assoc]

/-- Flattening the packed lines recovers the pending line and the words. -/
lemma wrapWordsAux_flatten (L : Nat) :
    ∀ (ws cur : List String), (wrapWordsAux L ws cur []).flatten = cur ++ ws := by
  intro ws
  induction ws with
  | nil =>
    intro cur
    by_cases h : cur = [] <;> simp [wrapWordsAux, h]
  | cons w ws ih =>
    intro cur
    simp only [wrapWordsAux]
    by_cases h1 : cur = []
    · simp only [if_pos h1]
      rw [ih [w]]
      simp [h1]
    · simp only [if_neg h1]
      by_cases h2 : (joinSp cur).length + w.length + 1 ≤ L
      · simp only [if_pos h2]
        rw [ih (cur ++ [w])]
        simp
      · simp only [if_neg h2]
        rw [wrapWordsAux_acc L ws [w]]
        simp [ih [w]]

/-- With a pending line open, the first emitted line extends it. -/
lemma wrapWordsAux_head (L : Nat) :
    ∀ (ws cur : List String), cur ≠ [] →
      ∃ ext rest, wrapWordsAux L ws cur [] = (cur ++ ext) :: rest := by
  intro ws
  induction ws with
  | nil =>
    intro cur h
    exact ⟨[], [], by simp [wrapWordsAux, h]⟩
  | cons w ws ih =>
    intro cur h
    simp only [wrapWordsAux, if_neg h]
    by_cases h2 : (joinSp cur).length + w.length + 1 ≤ L
    · simp only [if_pos h2]
      obtain ⟨ext, rest, heq⟩ := ih (cur ++ [w]) (by simp)
      exact ⟨w :: ext, rest, by rw [heq]; simp⟩
    · simp only [if_neg h2]
      rw [wrapWordsAux_acc L ws [w]]
      exact ⟨[], wrapWordsAux L ws [w] [], by simp⟩

/-- No emitted line is empty. -/
lemma wrapWordsAux_ne_nil (L : Nat) :
    ∀ (ws cur : List String) (acc : List (List String)),
      (∀ l ∈ acc, l ≠ ([] : List String)) →
      ∀ l ∈ wrapWordsAux L ws cur acc, l ≠ ([] : List String) := by
  intro ws
  induction ws with
  | nil =>
    intro cur acc hacc l hl
    by_cases h : cur = []
    · rw [wrapWordsAux, if_pos h] at hl
      exact hacc l hl
    · rw [wrapWordsAux, if_neg h] at hl
      rcases List.mem_append.mp hl with hm | hm
      · exact hacc l hm
      · rw [List.mem_singleton.mp hm]
        exact h
  | cons w ws ih =>
    intro cur acc hacc l hl
    simp only [wrapWordsAux] at hl
    by_cases h1 : cur = []
    · rw [if_pos h1] at hl
      exact ih [w] acc hacc l hl
    · rw [if_neg h1] at hl
      by_cases h2 : (joinSp cur).length + w.length + 1 ≤ L
      · rw [if_pos h2] at hl
        exact ih (cur ++ [w]) acc hacc l hl
      · rw [if_neg h2] at hl
        refine ih [w] (acc ++ [cur]) ?_ l hl
        intro l' hl'
        rcases List.mem_append.mp hl' with hm | hm
        · exact hacc l' hm
        · rw [List.mem_singleton.mp hm]
          exact h1

/-- Every emitted line either fits in `L` characters or is a single
(unsplit, possibly overlong) word. -/
lemma wrapWordsAux_fits (L : Nat) :
    ∀ (ws cur : List String) (acc : List (List String)),
      (cur = [] ∨ (joinSp cur).length ≤ L ∨ cur.length = 1) →
      (∀ l ∈ acc, (joinSp l).length ≤ L ∨ l.length = 1) →
      ∀ l ∈ wrapWordsAux L ws cur acc,
        (joinSp l).length ≤ L ∨ l.length = 1 := by
  intro ws
  induction ws with
  | nil =>
    intro cur acc hcur hacc l hl
    by_cases h : cur = []
    · rw [wrapWordsAux, if_pos h] at hl
      exact hacc l hl
    · rw [wrapWordsAux, if_neg h] at hl
      rcases List.mem_append.mp hl with hm | hm
      · exact hacc l hm
      · rw [List.mem_singleton.mp hm]
        rcases hcur with hc | hc
        · exact absurd hc h
        · exact hc
  | cons w ws ih =>
    intro cur acc hcur hacc l hl
    simp only [wrapWordsAux] at hl
    by_cases h1 : cur = []
    · rw [if_pos h1] at hl
      exact ih [w] acc (Or.inr (Or.inr rfl)) hacc l hl
    · rw [if_neg h1] at hl
      by_cases h2 : (joinSp cur).length + w.length + 1 ≤ L
      · rw [if_pos h2] at hl
        refine ih (cur ++ [w]) acc (Or.inr (Or.inl ?_)) hacc l hl
        rw [joinSp_append_singleton cur w h1, String.length_append,
          String.length_append]
        have hsp : (" " : String).length = 1 := rfl
        omega
      · rw [if_neg h2] at hl
        refine ih [w] (acc ++ [cur]) (Or.inr (Or.inr rfl)) ?_ l hl
        intro l' hl'
        rcases List.mem_append.mp hl' with hm | hm
        · exact hacc l' hm
        · rw [List.mem_singleton.mp hm]
          rcases hcur with hc | hc
          · exact absurd hc h1
          · exact hc

/-- Scanning a run of non-whitespace characters followed by a space emits
exactly the pending word extended by that run. -/
lemma wordsAux_word_space (rest : List Char) :
    ∀ (wchars cur : List Char), (∀ c ∈ wchars, ¬ c.isWhitespace = true) →
      cur ≠ [] ∨ wchars ≠ [] →
      wordsAux (wchars ++ ' ' :: rest) cur =
        String.mk (cur.reverse ++ wchars) :: wordsAux rest [] := by
  intro wchars
  induction wchars with
  | nil =>
    intro cur _ hne
    have hcur : cur ≠ [] := by
      rcases hne with h | h
      · exact h
      · exact absurd rfl h
    show wordsAux (' ' :: rest) cur = _
    rw [wordsAux]
    rw [if_pos (show (' ').isWhitespace = true from rfl), if_neg hcur]
    simp
  | cons c cs ih =>
    intro cur hws _
    have hc : c.isWhitespace = false := by
      have := hws c (by simp)
      simpa using this
    show wordsAux (c :: (cs ++ ' ' :: rest)) cur = _
    rw [wordsAux, hc]
    simp only [Bool.false_eq_true, if_false]
    rw [ih (c :: cur) (fun c' hc' => hws c' (by simp [hc'])) (Or.inl (by simp))]
    simp

/-- Splitting `"[speaker]: text"` on whitespace: when the speaker label has
no whitespace, the first token is the tag `"[speaker]:"` and the rest are
the words of the text. -/
lemma pySplit_tagged (s p : String) (hs : ∀ c ∈ s.data, ¬ c.isWhitespace = true) :
    pySplitWs ("[" ++ s ++ "]: " ++ p) =
      ("[" ++ s ++ "]:") :: pySplitWs p := by
  have hdata : ("[" ++ s ++ "]: " ++ p).data =
      ('[' :: s.data ++ [']', ':']) ++ ' ' :: p.data := by
    show ['['] ++ s.data ++ [']', ':', ' '] ++ p.data = _
    simp
  unfold pySplitWs
  rw [hdata, wordsAux_word_space p.data ('[' :: s.data ++ [']', ':']) []
    ?hws (Or.inr (by simp))]
  case hws =>
    intro c hc
    have h1 : ¬('[').isWhitespace = true := by decide
    have h2 : ¬(']').isWhitespace = true := by decide
    have h3 : ¬(':').isWhitespace = true := by decide
    simp only [List.mem_cons, List.mem_append, List.not_mem_nil, or_false] at hc
    rcases hc with (h | h) | h | h
    · subst h; exact h1
    · exact hs c h
    · subst h; exact h2
    · subst h; exact h3
  congr 1

/-- The wrapped lines of one subtitle entry, as token lists: `save_to_srt`
passes `"[" ++ speaker ++ "]: " ++ stripped_phrase` to
`_wrap_text_to_lines`. -/
def srtEntryLines (s p : String) (L : Nat) : List (List String) :=
  wrapWordsAux L (pySplitWs ("[" ++ s ++ "]: " ++ p)) [] []

/-- **C10.** Word wrapping applies to the whole entry line including the
`"[speaker]: "` prefix: the tag is the first token of the wrapped text (so
its characters count toward `max_line_length`), only the first wrapped line
carries the tag, continuation lines hold only words of the phrase text, and
every line either fits in `max_line_length` characters or is one single
unsplit word. -/
theorem srt_wrap_covers_speaker_tag (s p : String) (L : Nat)
    (hs : ∀ c ∈ s.data, ¬ c.isWhitespace = true)
    (hL : 0 < L)
    (hlong : L < ("[" ++ s ++ "]: " ++ p).length) :
    wrapTextToLines ("[" ++ s ++ "]: " ++ p) L =
      joinNl ((srtEntryLines s p L).map joinSp) ∧
    pySplitWs ("[" ++ s ++ "]: " ++ p) = ("[" ++ s ++ "]:") :: pySplitWs p ∧
    (srtEntryLines s p L).flatten = ("[" ++ s ++ "]:") :: pySplitWs p ∧
    (∀ l ∈ srtEntryLines s p L, l ≠ []) ∧
    (∃ ext rest, srtEntryLines s p L = (("[" ++ s ++ "]:") :: ext) :: rest) ∧
    (∀ l ∈ (srtEntryLines s p L).tail, ∀ w ∈ l, w ∈ pySplitWs p) ∧
    (∀ l ∈ srtEntryLines s p L, (joinSp l).length ≤ L ∨ l.length = 1) := by
  have hsplit := pySplit_tagged s p hs
  have hlines : srtEntryLines s p L =
      wrapWordsAux L (("[" ++ s ++ "]:") :: pySplitWs p) [] [] := by
    rw [srtEntryLines, hsplit]
  have hflat : (srtEntryLines s p L).flatten =
      ("[" ++ s ++ "]:") :: pySplitWs p := by
    rw [hlines]
    have h1 : wrapWordsAux L (("[" ++ s ++ "]:") :: pySplitWs p) [] [] =
        wrapWordsAux L (pySplitWs p) ["[" ++ s ++ "]:"] [] := by
      rw [wrapWordsAux, if_pos rfl]
    rw [h1, wrapWordsAux_flatten]
    rfl
  have hhead : ∃ ext rest, srtEntryLines s p L =
      (("[" ++ s ++ "]:") :: ext) :: rest := by
    rw [hlines]
    have h1 : wrapWordsAux L (("[" ++ s ++ "]:") :: pySplitWs p) [] [] =
        wrapWordsAux L (pySplitWs p) ["[" ++ s ++ "]:"] [] := by
      rw [wrapWordsAux, if_pos rfl]
    rw [h1]
    obtain ⟨ext, rest, heq⟩ :=
      wrapWordsAux_head L (pySplitWs p) ["[" ++ s ++ "]:"] (by simp)
    exact ⟨ext, rest, by rw [heq]; rfl⟩
  refine ⟨?_, hsplit, hflat, ?_, hhead, ?_, ?_⟩
  · rw [wrapTextToLines, wrapLines,
      if_neg (by push_neg; exact ⟨by omega, by omega⟩), srtEntryLines]
  · intro l hl
    rw [hlines] at hl
    exact wrapWordsAux_ne_nil L _ [] [] (by simp) l hl
  · obtain ⟨ext, rest, heq⟩ := hhead
    have hflat' := hflat
    rw [heq, List.flatten_cons, List.cons_append] at hflat'
    have hbody : ext ++ rest.flatten = pySplitWs p :=
      ((List.cons.injEq _ _ _ _).mp hflat').2
    intro l hl w hw
    rw [heq] at hl
    simp only [List.tail_cons] at hl
    have hmem : w ∈ ext ++ rest.flatten :=
      List.mem_append_right ext (List.mem_flatten.mpr ⟨l, hl, hw⟩)
    rw [hbody] at hmem
    exact hmem
  · intro l hl
    rw [hlines] at hl
    exact wrapWordsAux_fits L _ [] [] (Or.inl rfl) (by simp) l hl

/-- Witness for C10: speaker `"S"`, text `"hello world"`, line limit 10. -/
theorem srt_wrap_covers_speaker_tag_witness :
    wrapTextToLines ("[" ++ "S" ++ "]: " ++ "hello world") 10 =
      joinNl ((srtEntryLines "S" "hello world" 10).map joinSp) ∧
    pySplitWs ("[" ++ "S" ++ "]: " ++ "hello world") =
      ("[" ++ "S" ++ "]:") :: pySplitWs "hello world" ∧
    (srtEntryLines "S" "hello world" 10).flatten =
      ("[" ++ "S" ++ "]:") :: pySplitWs "hello world" ∧
    (∀ l ∈ srtEntryLines "S" "hello world" 10, l ≠ []) ∧
    (∃ ext rest, srtEntryLines "S" "hello world" 10 =
      (("[" ++ "S" ++ "]:") :: ext) :: rest) ∧
    (∀ l ∈ (srtEntryLines "S" "hello world" 10).tail, ∀ w ∈ l,
      w ∈ pySplitWs "hello world") ∧
    (∀ l ∈ srtEntryLines "S" "hello world" 10,
      (joinSp l).length ≤ 10 ∨ l.length = 1) :=
  srt_wrap_covers_speaker_tag "S" "hello world" 10 (by decide) (by norm_num)
    (by decide)

end TranscribeVideos


